import Mathlib

/-!
Verification of the rust-geo planar geometry kernel.

The geometric scalar type is modelled as the exact rational numbers, with
machine epsilon taken as the f64 value 2 ^ (-52). Fallible or potentially
non-terminating recursion (the RDP engine) is modelled with an explicit
fuel parameter returning an Option value; `none` means the fuel ran out,
so a result that is `none` at every fuel corresponds to a non-terminating
execution of the source program.

The point-to-line distance collaborator (EuclideanDistance) and the
Contains capability are declared outside this kernel's sources; functions
that consume the distance are parametrized over it, and Contains is
modelled from the spec where needed.
-/

namespace Geo

/-- A point, a pair of scalar coordinates (source: geo-types/src/point.rs,
with the coordinate pair of the inner Coordinate flattened). -/
structure Point where
  x : ℚ
  y : ℚ
deriving DecidableEq, Repr

/-- Fallback point used for the never-taken default of head and last
lookups on sequences already known to be non-empty. -/
def Point.origin : Point := ⟨0, 0⟩

/-- Sets the x component of the point, returning the updated point
(source: Point::set_x, which mutates in place and returns a handle to the
same point; in value semantics the handle is the updated value). -/
def Point.set_x (p : Point) (v : ℚ) : Point := { p with x := v }

/-- Sets the y component of the point, returning the updated point
(source: Point::set_y). -/
def Point.set_y (p : Point) (v : ℚ) : Point := { p with y := v }

/-- Modelled from the spec: a Line is an ordered pair of points; the source
file geo-types/src/line.rs is not part of the given sources. The second
field is named stop because its source name is a Lean keyword. -/
structure Line where
  start : Point
  stop : Point
deriving DecidableEq, Repr

/-- Modelled from the spec: dx is the run of the line, stop.x - start.x. -/
def Line.dx (l : Line) : ℚ := l.stop.x - l.start.x

/-- Modelled from the spec: dy is the rise of the line, stop.y - start.y. -/
def Line.dy (l : Line) : ℚ := l.stop.y - l.start.y

/-- Modelled from the spec: a LineString's constituent segments, one per
adjacent pair of points; empty and single-point sequences produce none. -/
def linesOf : List Point → List Line
  | a :: b :: rest => ⟨a, b⟩ :: linesOf (b :: rest)
  | _ => []

/-- Modelled from the spec: a Polygon is one exterior ring plus interior
rings (holes); rings are not validated for closure. -/
structure Polygon where
  exterior : List Point
  interiors : List (List Point)
deriving DecidableEq, Repr

/-- Modelled from the spec: an axis-aligned box given by four scalars;
normalization (xmin le xmax) is not enforced. -/
structure Bbox where
  xmin : ℚ
  xmax : ℚ
  ymin : ℚ
  ymax : ℚ
deriving DecidableEq, Repr

/-- The f64 machine epsilon used by the source's T::epsilon() calls. -/
def machineEps : ℚ := 1 / 2 ^ 52

/-! ## The Simplify / RDP engine (source: geo/src/algorithm/simplify.rs) -/

/-- The interior scan of `rdp`: walk indices 1 .. len - 2, computing each
interior point's distance to the line through the first and last points,
and keep the maximum distance together with the first index attaining it.
The accumulator starts at distance 0, index 0, exactly as the source's
`dmax` and `index` locals; `dist` is the EuclideanDistance collaborator,
taking the point and the two endpoints of the reference line. -/
def rdpFindMax (dist : Point → Point → Point → ℚ) (pts : List Point) : ℚ × ℕ :=
  (List.range' 1 (pts.length - 2)).foldl
    (fun acc i =>
      let d := dist (pts.getD i Point.origin) (pts.headD Point.origin) (pts.getLastD Point.origin)
      if acc.1 < d then (d, i) else acc)
    (0, 0)

/-- Fueled Ramer-Douglas-Peucker recursion (source: fn rdp). An empty
input is returned unchanged; otherwise, if the maximal interior deviation
exceeds epsilon the prefix up to and including the split index and the
suffix from the split index are simplified recursively and joined with the
duplicated junction point dropped, and if not, the sequence collapses to
its first and last points. `none` models fuel exhaustion. -/
def rdpF (dist : Point → Point → Point → ℚ) : ℕ → List Point → ℚ → Option (List Point)
  | 0, _, _ => none
  | fuel + 1, pts, eps =>
    if pts = [] then some [] else
    let m := rdpFindMax dist pts
    if eps < m.1 then
      match rdpF dist fuel (pts.take (m.2 + 1)) eps, rdpF dist fuel (pts.drop m.2) eps with
      | some pre, some suf => some (pre.dropLast ++ suf)
      | _, _ => none
    else
      some [pts.headD Point.origin, pts.getLastD Point.origin]

/-- The RDP entry point: run the fueled recursion with enough fuel for any
terminating execution (one more than the input length). -/
def rdp (dist : Point → Point → Point → ℚ) (pts : List Point) (eps : ℚ) : Option (List Point) :=
  rdpF dist (pts.length + 1) pts eps

/-- A concrete deviation measure (the absolute cross product of the
segment direction with the offset to the point), used to instantiate the
abstract EuclideanDistance collaborator on concrete inputs. -/
def distCross (p a b : Point) : ℚ :=
  |(b.x - a.x) * (p.y - a.y) - (b.y - a.y) * (p.x - a.x)|

/-! ## The Contains collaborator (external to this core, spec section 6) -/

/-- One step of the even-odd crossing test: whether a rightward ray from
the query point crosses the segment. -/
def raySegCross (p : Point) (seg : Line) : Bool :=
  (decide (p.y < seg.start.y) != decide (p.y < seg.stop.y)) &&
    decide (p.x < (seg.stop.x - seg.start.x) * (p.y - seg.start.y) / (seg.stop.y - seg.start.y)
      + seg.start.x)

/-- Modelled from the spec: membership of a point in the region bounded by
a ring, by the standard even-odd ray-crossing rule over the ring's
constituent segments; the source collaborator (geo's Contains for
Polygon) is outside the given sources. -/
def pointInRing (p : Point) (ring : List Point) : Bool :=
  (linesOf ring).foldl (fun acc seg => if raySegCross p seg then !acc else acc) false

/-- Modelled from the spec: Contains(polygon, point) is the standard
point-in-polygon membership respecting holes; the point must be inside
the exterior ring and outside every interior ring. -/
def polygonContainsPoint (poly : Polygon) (p : Point) : Bool :=
  pointInRing p poly.exterior && poly.interiors.all fun r => !(pointInRing p r)

/-- Modelled from the spec: the separate Contains relation over boxes used
by the Bbox intersection case; a box contains another iff the other's x
range and y range both lie within its own. -/
def bboxContainsBbox (outer inner : Bbox) : Bool :=
  decide (outer.xmin ≤ inner.xmin) && decide (inner.xmax ≤ outer.xmax) &&
    decide (outer.ymin ≤ inner.ymin) && decide (inner.ymax ≤ outer.ymax)

/-! ## The Intersects predicate matrix (source: geo/src/algorithm/intersects.rs) -/

/-- Line against Point (source: impl Intersects<Point> for Line): the
four-case parametric policy on the positions tx, ty of the point along
each axis of the segment, each computed only where the corresponding
denominator is non-zero. -/
def lineIntersectsPoint (l : Line) (p : Point) : Bool :=
  let tx : Option ℚ := if l.dx = 0 then none else some ((p.x - l.start.x) / l.dx)
  let ty : Option ℚ := if l.dy = 0 then none else some ((p.y - l.start.y) / l.dy)
  match tx, ty with
  | none, none => decide (p = l.start)
  | some t, none => decide (p.y = l.start.y) && (decide (0 ≤ t) && decide (t ≤ 1))
  | none, some t => decide (p.x = l.start.x) && (decide (0 ≤ t) && decide (t ≤ 1))
  | some t_x, some t_y =>
    decide (|t_x - t_y| ≤ machineEps) && (decide (0 ≤ t_x) && decide (t_x ≤ 1))

/-- Point against Line delegates to the Line against Point case
(source: impl Intersects<Line> for Point). -/
def pointIntersectsLine (p : Point) (l : Line) : Bool := lineIntersectsPoint l p

/-- Line against Line by Cramer's rule on the two segment parameters, with
an endpoint-containment fallback when the determinant is zero
(source: impl Intersects<Line> for Line). -/
def lineIntersectsLine (s other : Line) : Bool :=
  let a1 := s.dx
  let a2 := s.dy
  let b1 := -other.dx
  let b2 := -other.dy
  let c1 := other.start.x - s.start.x
  let c2 := other.start.y - s.start.y
  let d := a1 * b2 - a2 * b1
  if d = 0 then
    lineIntersectsPoint other s.start || lineIntersectsPoint other s.stop ||
      lineIntersectsPoint s other.start || lineIntersectsPoint s other.stop
  else
    let sp := (c1 * b2 - c2 * b1) / d
    let tp := (a1 * c2 - a2 * c1) / d
    decide (0 ≤ sp) && decide (sp ≤ 1) && (decide (0 ≤ tp) && decide (tp ≤ 1))

/-- Line against LineString: any constituent segment intersects the line
(source: impl Intersects<LineString> for Line). -/
def lineIntersectsLineString (l : Line) (ls : List Point) : Bool :=
  (linesOf ls).any fun seg => lineIntersectsLine l seg

/-- LineString against Line delegates
(source: impl Intersects<Line> for LineString). -/
def lineStringIntersectsLine (ls : List Point) (l : Line) : Bool :=
  lineIntersectsLineString l ls

/-- Line against Polygon: the line meets the exterior ring, or an interior
ring, or an endpoint of the line is contained in the polygon
(source: impl Intersects<Polygon> for Line). -/
def lineIntersectsPolygon (l : Line) (poly : Polygon) : Bool :=
  lineStringIntersectsLine poly.exterior l ||
    (poly.interiors.any fun inner => lineStringIntersectsLine inner l) ||
    polygonContainsPoint poly l.start || polygonContainsPoint poly l.stop

/-- Polygon against Line delegates
(source: impl Intersects<Line> for Polygon). -/
def polygonIntersectsLine (poly : Polygon) (l : Line) : Bool :=
  lineIntersectsPolygon l poly

/-- The direct parametric test applied to one ordered pair of segments by
the LineString against LineString case: zero-denominator pairs are
skipped, otherwise both parameters must lie in the unit interval. -/
def segPairTest (a b : Line) : Bool :=
  let den := b.dy * a.dx - b.dx * a.dy
  if den = 0 then false
  else
    let ua_t := b.dx * (a.start.y - b.start.y) - b.dy * (a.start.x - b.start.x)
    let ub_t := a.dx * (a.start.y - b.start.y) - a.dy * (a.start.x - b.start.x)
    let u_a := ua_t / den
    let u_b := ub_t / den
    decide (0 ≤ u_a) && decide (u_a ≤ 1) && (decide (0 ≤ u_b) && decide (u_b ≤ 1))

/-- LineString against LineString: empty operands yield false, otherwise
some ordered pair of constituent segments passes the direct parametric
test (source: impl Intersects<LineString> for LineString). -/
def lineStringIntersectsLineString (s other : List Point) : Bool :=
  if s = [] || other = [] then false
  else (linesOf s).any fun a => (linesOf other).any fun b => segPairTest a b

/-- Polygon against LineString: an exterior or interior ring meets the
linestring, or some point of the linestring is contained in the polygon
(source: impl Intersects<LineString> for Polygon). -/
def polygonIntersectsLineString (poly : Polygon) (ls : List Point) : Bool :=
  if lineStringIntersectsLineString poly.exterior ls ||
      (poly.interiors.any fun inner => lineStringIntersectsLineString inner ls) then
    true
  else
    ls.any fun p => polygonContainsPoint poly p

/-- LineString against Polygon delegates
(source: impl Intersects<Polygon> for LineString). -/
def lineStringIntersectsPolygon (ls : List Point) (poly : Polygon) : Bool :=
  polygonIntersectsLineString poly ls

/-- Bbox against Bbox: false when the argument box contains the receiver,
otherwise the receiver's min or max must fall within the argument's range
on each axis (source: impl Intersects<Bbox> for Bbox). -/
def bboxIntersectsBbox (s other : Bbox) : Bool :=
  if bboxContainsBbox other s then false
  else
    (decide (other.xmin ≤ s.xmin) && decide (s.xmin ≤ other.xmax) ||
        decide (other.xmin ≤ s.xmax) && decide (s.xmax ≤ other.xmax)) &&
      (decide (other.ymin ≤ s.ymin) && decide (s.ymin ≤ other.ymax) ||
        decide (other.ymin ≤ s.ymax) && decide (s.ymax ≤ other.ymax))

/-- The 5-point closed rectangular ring a Polygon against Bbox case builds
from the box (source: impl Intersects<Bbox> for Polygon). -/
def bboxToPolygon (b : Bbox) : Polygon :=
  ⟨[⟨b.xmin, b.ymin⟩, ⟨b.xmin, b.ymax⟩, ⟨b.xmax, b.ymax⟩, ⟨b.xmax, b.ymin⟩, ⟨b.xmin, b.ymin⟩], []⟩

/-- Polygon against Polygon: the receiver meets the other's exterior ring
or one of the other's interior rings, or the other meets the receiver's
exterior ring (source: impl Intersects<Polygon> for Polygon). -/
def polygonIntersectsPolygon (s other : Polygon) : Bool :=
  polygonIntersectsLineString s other.exterior ||
    (other.interiors.any fun inner => polygonIntersectsLineString s inner) ||
    polygonIntersectsLineString other s.exterior

/-- Polygon against Bbox: build the rectangle polygon and delegate to
Polygon against Polygon (source: impl Intersects<Bbox> for Polygon). -/
def polygonIntersectsBbox (poly : Polygon) (b : Bbox) : Bool :=
  polygonIntersectsPolygon poly (bboxToPolygon b)

/-- Bbox against Polygon delegates
(source: impl Intersects<Polygon> for Bbox). -/
def bboxIntersectsPolygon (b : Bbox) (poly : Polygon) : Bool :=
  polygonIntersectsBbox poly b

/-! ## List bookkeeping lemmas -/

theorem head?_eq_headD {l : List Point} (h : l ≠ []) :
    l.head? = some (l.headD Point.origin) := by
  cases l with
  | nil => exact absurd rfl h
  | cons a t => rfl

theorem getLast?_eq_getLastD {l : List Point} (h : l ≠ []) :
    l.getLast? = some (l.getLastD Point.origin) := by
  rw [List.getLastD_eq_getLast?]
  obtain ⟨a, ha⟩ := Option.isSome_iff_exists.mp (List.getLast?_isSome.mpr h)
  simp [ha]

theorem take_succ_ne_nil {l : List Point} (h : l ≠ []) (n : ℕ) :
    l.take (n + 1) ≠ [] := by
  cases l with
  | nil => exact absurd rfl h
  | cons a t => simp [List.take_succ_cons]

theorem head?_take_succ (l : List Point) (n : ℕ) :
    (l.take (n + 1)).head? = l.head? := by
  simp [List.head?_take]

theorem drop_ne_nil {l : List Point} {i : ℕ} (h : i < l.length) :
    l.drop i ≠ [] := by
  apply List.ne_nil_of_length_pos
  rw [List.length_drop]
  omega

theorem getLast?_drop {l : List Point} {i : ℕ} (h : i < l.length) :
    (l.drop i).getLast? = l.getLast? := by
  induction l generalizing i with
  | nil => simp at h
  | cons a t ih =>
    cases i with
    | zero => rfl
    | succ j =>
      rw [List.drop_succ_cons]
      have hj : j < t.length := by simpa using h
      rw [ih hj]
      cases t with
      | nil => simp at hj
      | cons b t' => rw [List.getLast?_cons_cons]

theorem head?_dropLast {l : List Point} (h : 2 ≤ l.length) :
    l.dropLast.head? = l.head? := by
  match l with
  | [] => simp at h
  | [a] => simp at h
  | a :: b :: t => simp [List.dropLast]

theorem dropLast_ne_nil {l : List Point} (h : 2 ≤ l.length) :
    l.dropLast ≠ [] := by
  apply List.ne_nil_of_length_pos
  rw [List.length_dropLast]
  omega

theorem head?_append_left {l l' : List Point} (h : l ≠ []) :
    (l ++ l').head? = l.head? := by
  cases l with
  | nil => exact absurd rfl h
  | cons a t => rfl

theorem getLast?_append_right {l l' : List Point} (h : l' ≠ []) :
    (l ++ l').getLast? = l'.getLast? := by
  rw [List.getLast?_append]
  obtain ⟨a, ha⟩ := Option.isSome_iff_exists.mp (List.getLast?_isSome.mpr h)
  simp [ha]

/-! ## Structure of the RDP scan and recursion -/

/-- The scan returns either the untouched accumulator, or a split index
that is a genuine interior index of the input. -/
theorem rdpFindMax_cases (dist : Point → Point → Point → ℚ) (pts : List Point) :
    ((rdpFindMax dist pts).1 = 0 ∧ (rdpFindMax dist pts).2 = 0) ∨
      (1 ≤ (rdpFindMax dist pts).2 ∧ (rdpFindMax dist pts).2 + 2 ≤ pts.length) := by
  unfold rdpFindMax
  apply List.foldlRecOn (motive := fun acc : ℚ × ℕ =>
    (acc.1 = 0 ∧ acc.2 = 0) ∨ (1 ≤ acc.2 ∧ acc.2 + 2 ≤ pts.length))
  · exact Or.inl ⟨rfl, rfl⟩
  · intro acc hacc i hi
    have hmem := List.mem_range'_1.mp hi
    dsimp only
    split
    · exact Or.inr ⟨hmem.1, by omega⟩
    · exact hacc

/-- Any value the fueled recursion returns on a non-empty input has at
least two points, starts at the input's first point, and ends at the
input's last point. -/
theorem rdpF_some_spec (dist : Point → Point → Point → ℚ) :
    ∀ (fuel : ℕ) {pts : List Point} {eps : ℚ} {r : List Point},
      rdpF dist fuel pts eps = some r → pts ≠ [] →
      2 ≤ r.length ∧ r.head? = pts.head? ∧ r.getLast? = pts.getLast? := by
  intro fuel
  induction fuel with
  | zero => intro pts eps r h _; simp [rdpF] at h
  | succ f ih =>
    intro pts eps r h hne
    rw [rdpF, if_neg hne] at h
    by_cases hsplit : eps < (rdpFindMax dist pts).1
    · rw [if_pos hsplit] at h
      cases hpre : rdpF dist f (pts.take ((rdpFindMax dist pts).2 + 1)) eps with
      | none => rw [hpre] at h; simp at h
      | some pre =>
        cases hsuf : rdpF dist f (pts.drop (rdpFindMax dist pts).2) eps with
        | none => rw [hpre, hsuf] at h; simp at h
        | some suf =>
          rw [hpre, hsuf] at h
          simp only [Option.some.injEq] at h
          have hidx : (rdpFindMax dist pts).2 < pts.length := by
            rcases rdpFindMax_cases dist pts with ⟨_, h0⟩ | ⟨_, hb⟩
            · rw [h0]; exact List.length_pos.mpr hne
            · omega
          have hpre' := ih hpre (take_succ_ne_nil hne _)
          have hsuf' := ih hsuf (drop_ne_nil hidx)
          subst h
          refine ⟨?_, ?_, ?_⟩
          · rw [List.length_append, List.length_dropLast]; omega
          · rw [head?_append_left (dropLast_ne_nil hpre'.1),
              head?_dropLast hpre'.1, hpre'.2.1, head?_take_succ]
          · rw [getLast?_append_right ?hne, hsuf'.2.2, getLast?_drop hidx]
            case hne =>
              apply List.ne_nil_of_length_pos
              omega
    · rw [if_neg hsplit] at h
      simp only [Option.some.injEq] at h
      subst h
      refine ⟨by simp, ?_, ?_⟩
      · rw [head?_eq_headD hne]; rfl
      · rw [getLast?_eq_getLastD hne]
        rfl

/-- When the scan leaves the split index at 0 while its maximal distance
still exceeds epsilon, the suffix recursion receives the whole input again
and the recursion exhausts any amount of fuel. -/
theorem rdpF_stuck_at_zero (dist : Point → Point → Point → ℚ) :
    ∀ (fuel : ℕ) {pts : List Point} {eps : ℚ}, pts ≠ [] →
      eps < (rdpFindMax dist pts).1 → (rdpFindMax dist pts).2 = 0 →
      rdpF dist fuel pts eps = none := by
  intro fuel
  induction fuel with
  | zero => intro pts eps _ _ _; rfl
  | succ f ih =>
    intro pts eps hne hlt hzero
    rw [rdpF, if_neg hne, if_pos hlt, hzero]
    rw [List.drop_zero, ih hne hlt hzero]
    cases rdpF dist f (pts.take (0 + 1)) eps <;> rfl

/-- Any value the fueled recursion returns on an input with at least two
points is no longer than the input. -/
theorem rdpF_length_le (dist : Point → Point → Point → ℚ) :
    ∀ (fuel : ℕ) {pts : List Point} {eps : ℚ} {r : List Point},
      rdpF dist fuel pts eps = some r → 2 ≤ pts.length → r.length ≤ pts.length := by
  intro fuel
  induction fuel with
  | zero => intro pts eps r h _; simp [rdpF] at h
  | succ f ih =>
    intro pts eps r h hlen
    have hne : pts ≠ [] := by
      apply List.ne_nil_of_length_pos; omega
    have horig := h
    rw [rdpF, if_neg hne] at h
    by_cases hsplit : eps < (rdpFindMax dist pts).1
    · rw [if_pos hsplit] at h
      rcases rdpFindMax_cases dist pts with ⟨_, h0⟩ | ⟨h1, h2⟩
      · rw [rdpF_stuck_at_zero dist (f + 1) hne hsplit h0] at horig
        exact absurd horig (by simp)
      · cases hpre : rdpF dist f (pts.take ((rdpFindMax dist pts).2 + 1)) eps with
        | none => rw [hpre] at h; simp at h
        | some pre =>
          cases hsuf : rdpF dist f (pts.drop (rdpFindMax dist pts).2) eps with
          | none => rw [hpre, hsuf] at h; simp at h
          | some suf =>
            rw [hpre, hsuf] at h
            simp only [Option.some.injEq] at h
            subst h
            have hpl := ih hpre (by rw [List.length_take]; omega)
            have hsl := ih hsuf (by rw [List.length_drop]; omega)
            rw [List.length_take] at hpl
            rw [List.length_drop] at hsl
            rw [List.length_append, List.length_dropLast]
            omega
    · rw [if_neg hsplit] at h
      simp only [Option.some.injEq] at h
      subst h
      simpa using hlen

/-- With a non-negative epsilon, fuel exceeding the input length is enough
for the fueled recursion to produce a value. -/
theorem rdpF_isSome (dist : Point → Point → Point → ℚ) :
    ∀ (fuel : ℕ) (pts : List Point) {eps : ℚ}, 0 ≤ eps → pts.length < fuel →
      (rdpF dist fuel pts eps).isSome := by
  intro fuel
  induction fuel with
  | zero => intro pts eps _ h; omega
  | succ f ih =>
    intro pts eps heps hlen
    by_cases hne : pts = []
    · subst hne; simp [rdpF]
    · rw [rdpF, if_neg hne]
      by_cases hsplit : eps < (rdpFindMax dist pts).1
      · rw [if_pos hsplit]
        rcases rdpFindMax_cases dist pts with ⟨h0, _⟩ | ⟨h1, h2⟩
        · exact absurd (lt_of_le_of_lt heps hsplit) (by rw [h0]; exact lt_irrefl 0)
        · have hpre := ih (pts.take ((rdpFindMax dist pts).2 + 1)) heps
            (by rw [List.length_take]; omega)
          have hsuf := ih (pts.drop (rdpFindMax dist pts).2) heps
            (by rw [List.length_drop]; omega)
          obtain ⟨pre, hpre⟩ := Option.isSome_iff_exists.mp hpre
          obtain ⟨suf, hsuf⟩ := Option.isSome_iff_exists.mp hsuf
          rw [hpre, hsuf]
          rfl
      · rw [if_neg hsplit]
        rfl

/-- Lengths of the results of the fueled recursion are antitone in
epsilon: whenever both runs return, the run with the larger epsilon
returns no more points, whatever the fuels. -/
theorem rdpF_length_antitone (dist : Point → Point → Point → ℚ) :
    ∀ (f1 : ℕ) {f2 : ℕ} {pts : List Point} {e1 e2 : ℚ} {r1 r2 : List Point},
      e1 ≤ e2 → rdpF dist f1 pts e1 = some r1 → rdpF dist f2 pts e2 = some r2 →
      r2.length ≤ r1.length := by
  intro f1
  induction f1 with
  | zero => intro f2 pts e1 e2 r1 r2 _ h1 _; simp [rdpF] at h1
  | succ g1 ih =>
    intro f2 pts e1 e2 r1 r2 h12 h1 h2
    cases f2 with
    | zero => simp [rdpF] at h2
    | succ g2 =>
      by_cases hne : pts = []
      · subst hne
        simp only [rdpF, if_true, eq_self_iff_true, Option.some.injEq] at h1 h2
        rw [← h1, ← h2]
      · have h1orig := h1
        rw [rdpF, if_neg hne] at h1 h2
        by_cases hs2 : e2 < (rdpFindMax dist pts).1
        · have hs1 : e1 < (rdpFindMax dist pts).1 := lt_of_le_of_lt h12 hs2
          rw [if_pos hs1] at h1
          rw [if_pos hs2] at h2
          cases hpre1 : rdpF dist g1 (pts.take ((rdpFindMax dist pts).2 + 1)) e1 with
          | none => rw [hpre1] at h1; simp at h1
          | some pre1 =>
            cases hsuf1 : rdpF dist g1 (pts.drop (rdpFindMax dist pts).2) e1 with
            | none => rw [hpre1, hsuf1] at h1; simp at h1
            | some suf1 =>
              cases hpre2 : rdpF dist g2 (pts.take ((rdpFindMax dist pts).2 + 1)) e2 with
              | none => rw [hpre2] at h2; simp at h2
              | some pre2 =>
                cases hsuf2 : rdpF dist g2 (pts.drop (rdpFindMax dist pts).2) e2 with
                | none => rw [hpre2, hsuf2] at h2; simp at h2
                | some suf2 =>
                  rw [hpre1, hsuf1] at h1
                  rw [hpre2, hsuf2] at h2
                  simp only [Option.some.injEq] at h1 h2
                  subst h1; subst h2
                  have hp := ih h12 hpre1 hpre2
                  have hs := ih h12 hsuf1 hsuf2
                  rw [List.length_append, List.length_append,
                    List.length_dropLast, List.length_dropLast]
                  omega
        · rw [if_neg hs2] at h2
          simp only [Option.some.injEq] at h2
          subst h2
          have h2le := (rdpF_some_spec dist (g1 + 1) h1orig hne).1
          simpa using h2le

/-- On a one-point input with a negative epsilon the recursion consumes
every amount of fuel: the scan leaves dmax at 0, which still exceeds
epsilon, and the suffix slice from index 0 is the whole input again. -/
theorem rdpF_single_neg (dist : Point → Point → Point → ℚ) (p : Point) :
    ∀ (fuel : ℕ) {eps : ℚ}, eps < 0 → rdpF dist fuel [p] eps = none := by
  intro fuel
  induction fuel with
  | zero => intro eps _; rfl
  | succ f ih =>
    intro eps heps
    rw [rdpF, if_neg (by simp)]
    have hm : rdpFindMax dist [p] = (0, 0) := rfl
    rw [hm]
    rw [if_pos heps]
    rw [show ([p] : List Point).drop 0 = [p] from rfl, ih heps]
    cases rdpF dist f (([p] : List Point).take (0 + 1)) eps <;> rfl

/-! ## Claims about the RDP engine -/

/-- C1: for every non-empty point sequence and every epsilon ≥ 0, rdp
returns a value whose first element is the first element of the input and
whose last element is the last element of the input; this holds for any
distance collaborator. -/
theorem rdp_preserves_endpoints (dist : Point → Point → Point → ℚ)
    (pts : List Point) (eps : ℚ) (hne : pts ≠ []) (heps : 0 ≤ eps) :
    ∃ r, rdp dist pts eps = some r ∧ r.head? = pts.head? ∧ r.getLast? = pts.getLast? := by
  obtain ⟨r, hr⟩ :=
    Option.isSome_iff_exists.mp (rdpF_isSome dist (pts.length + 1) pts heps (by omega))
  exact ⟨r, hr, (rdpF_some_spec dist _ hr hne).2.1, (rdpF_some_spec dist _ hr hne).2.2⟩

/-- Witness for C1 at a concrete three-point input with epsilon 1. -/
theorem rdp_preserves_endpoints_witness :
    ([⟨0, 0⟩, ⟨1, 5⟩, ⟨2, 0⟩] : List Point) ≠ [] ∧ (0 : ℚ) ≤ 1 ∧
      ∃ r, rdp distCross [⟨0, 0⟩, ⟨1, 5⟩, ⟨2, 0⟩] 1 = some r ∧
        r.head? = ([⟨0, 0⟩, ⟨1, 5⟩, ⟨2, 0⟩] : List Point).head? ∧
        r.getLast? = ([⟨0, 0⟩, ⟨1, 5⟩, ⟨2, 0⟩] : List Point).getLast? :=
  ⟨by simp, by norm_num,
    rdp_preserves_endpoints distCross [⟨0, 0⟩, ⟨1, 5⟩, ⟨2, 0⟩] 1 (by simp) (by norm_num)⟩

/-- C2 counterexample: on the one-point sequence [(0,0)] with epsilon 0
the code returns the two-point sequence [(0,0),(0,0)], which is not the
input sequence. -/
theorem rdp_single_point_not_unchanged :
    rdp distCross [⟨0, 0⟩] 0 = some [⟨0, 0⟩, ⟨0, 0⟩] ∧
      rdp distCross [⟨0, 0⟩] 0 ≠ some [⟨0, 0⟩] := by
  have h1 : rdp distCross [⟨0, 0⟩] 0 = some [⟨0, 0⟩, ⟨0, 0⟩] := by
    norm_num [rdp, rdpF, rdpFindMax]
  refine ⟨h1, ?_⟩
  rw [h1]
  simp

/-- C2 amended: for every distance collaborator and every epsilon (the
empty check precedes the scan and the branch on epsilon), a 0-point input
is returned unchanged; for epsilon ≥ 0 a 1-point input [p] returns the
collapsed two-point sequence [p, p] rather than the input. -/
theorem rdp_small_inputs (dist : Point → Point → Point → ℚ) (p : Point) (eps : ℚ) :
    rdp dist [] eps = some [] ∧ (0 ≤ eps → rdp dist [p] eps = some [p, p]) := by
  refine ⟨rfl, fun heps => ?_⟩
  show rdpF dist 2 [p] eps = some [p, p]
  rw [rdpF, if_neg (by simp)]
  have hm : rdpFindMax dist [p] = (0, 0) := rfl
  rw [hm]
  rw [if_neg (not_lt.mpr heps)]
  rfl

/-- Witness for C2's amended claim: the 0-point clause at the negative
epsilon -1, the 1-point clause at epsilon 1 and the point (2,3). -/
theorem rdp_small_inputs_witness :
    rdp distCross [] (-1) = some [] ∧ (0 : ℚ) ≤ 1 ∧
      rdp distCross [⟨2, 3⟩] 1 = some [⟨2, 3⟩, ⟨2, 3⟩] :=
  ⟨(rdp_small_inputs distCross ⟨2, 3⟩ (-1)).1, by norm_num,
    (rdp_small_inputs distCross ⟨2, 3⟩ 1).2 (by norm_num)⟩

/-- C3 counterexample: on the one-point sequence [(0,0)] with epsilon 0,
the output has two points, strictly more than the input's one. -/
theorem rdp_output_longer_than_input :
    rdp distCross [⟨0, 0⟩] 0 = some [⟨0, 0⟩, ⟨0, 0⟩] ∧
      ¬ (([⟨0, 0⟩, ⟨0, 0⟩] : List Point).length ≤ ([⟨0, 0⟩] : List Point).length) := by
  constructor
  · norm_num [rdp, rdpF, rdpFindMax]
  · simp

/-- C3 amended: except for one-point inputs (which collapse to two
points), any value rdp returns is no longer than the input; this holds for
every epsilon and any distance collaborator. -/
theorem rdp_length_le (dist : Point → Point → Point → ℚ) {pts : List Point} {eps : ℚ}
    {r : List Point} (hlen : pts.length ≠ 1) (h : rdp dist pts eps = some r) :
    r.length ≤ pts.length := by
  rcases Nat.lt_or_ge pts.length 2 with hl | hl
  · have hzero : pts.length = 0 := by omega
    have hnil : pts = [] := List.length_eq_zero.mp hzero
    subst hnil
    have : some ([] : List Point) = some r := h
    simp only [Option.some.injEq] at this
    rw [← this]
  · exact rdpF_length_le dist _ h hl

/-- Witness for C3's amended claim at a concrete three-point input. -/
theorem rdp_length_le_witness :
    ([⟨0, 0⟩, ⟨1, 5⟩, ⟨2, 0⟩] : List Point).length ≠ 1 ∧
      rdp distCross [⟨0, 0⟩, ⟨1, 5⟩, ⟨2, 0⟩] 1 = some [⟨0, 0⟩, ⟨1, 5⟩, ⟨2, 0⟩] ∧
      ([⟨0, 0⟩, ⟨1, 5⟩, ⟨2, 0⟩] : List Point).length ≤
        ([⟨0, 0⟩, ⟨1, 5⟩, ⟨2, 0⟩] : List Point).length :=
  have h : rdp distCross [⟨0, 0⟩, ⟨1, 5⟩, ⟨2, 0⟩] 1 = some [⟨0, 0⟩, ⟨1, 5⟩, ⟨2, 0⟩] := by
    norm_num [rdp, rdpF, rdpFindMax, distCross, Point.origin, List.range', List.cons_ne_nil]
  ⟨by simp, h, rdp_length_le distCross (by simp) h⟩

/-- C4 counterexample: with the finite epsilon -1 and the one-point input
[(0,0)] the recursion never reaches a base case: the fueled model returns
none at every fuel, so the claim that rdp terminates for every finite
epsilon is false. -/
theorem rdp_not_total_neg_eps :
    ¬ ∃ fuel, (rdpF distCross fuel [⟨0, 0⟩] (-1)).isSome = true := by
  rintro ⟨fuel, hf⟩
  rw [rdpF_single_neg distCross ⟨0, 0⟩ fuel (by norm_num)] at hf
  simp at hf

/-- C4 amended: rdp terminates for every finite point sequence and every
epsilon ≥ 0 (not for every finite epsilon: a negative epsilon on a
non-empty input recurses forever). -/
theorem rdp_total_of_nonneg_eps (dist : Point → Point → Point → ℚ) (pts : List Point)
    (eps : ℚ) (heps : 0 ≤ eps) : (rdp dist pts eps).isSome :=
  rdpF_isSome dist (pts.length + 1) pts heps (by omega)

/-- Witness for C4's amended claim at a concrete input with epsilon 1. -/
theorem rdp_total_of_nonneg_eps_witness :
    (0 : ℚ) ≤ 1 ∧ (rdp distCross [⟨0, 0⟩, ⟨1, 5⟩] 1).isSome :=
  ⟨by norm_num, rdp_total_of_nonneg_eps distCross [⟨0, 0⟩, ⟨1, 5⟩] 1 (by norm_num)⟩

/-- C5: for a fixed input sequence and distance collaborator, whenever the
code returns for two epsilons e1 ≤ e2, the run with the larger epsilon
returns no more points than the run with the smaller one. -/
theorem rdp_length_antitone_in_eps (dist : Point → Point → Point → ℚ)
    {pts : List Point} {e1 e2 : ℚ} {r1 r2 : List Point} (h12 : e1 ≤ e2)
    (h1 : rdp dist pts e1 = some r1) (h2 : rdp dist pts e2 = some r2) :
    r2.length ≤ r1.length :=
  rdpF_length_antitone dist _ h12 h1 h2

/-- Witness for C5: at epsilon 1 the concrete input keeps three points, at
epsilon 20 it collapses to two. -/
theorem rdp_length_antitone_in_eps_witness :
    (1 : ℚ) ≤ 20 ∧
      rdp distCross [⟨0, 0⟩, ⟨1, 5⟩, ⟨2, 0⟩] 1 = some [⟨0, 0⟩, ⟨1, 5⟩, ⟨2, 0⟩] ∧
      rdp distCross [⟨0, 0⟩, ⟨1, 5⟩, ⟨2, 0⟩] 20 = some [⟨0, 0⟩, ⟨2, 0⟩] ∧
      ([⟨0, 0⟩, ⟨2, 0⟩] : List Point).length ≤
        ([⟨0, 0⟩, ⟨1, 5⟩, ⟨2, 0⟩] : List Point).length :=
  have h1 : rdp distCross [⟨0, 0⟩, ⟨1, 5⟩, ⟨2, 0⟩] 1 = some [⟨0, 0⟩, ⟨1, 5⟩, ⟨2, 0⟩] := by
    norm_num [rdp, rdpF, rdpFindMax, distCross, Point.origin, List.range', List.cons_ne_nil]
  have h2 : rdp distCross [⟨0, 0⟩, ⟨1, 5⟩, ⟨2, 0⟩] 20 = some [⟨0, 0⟩, ⟨2, 0⟩] := by
    norm_num [rdp, rdpF, rdpFindMax, distCross, Point.origin, List.range', List.cons_ne_nil]
  ⟨by norm_num, h1, h2, rdp_length_antitone_in_eps distCross (by norm_num) h1 h2⟩

/-! ## Claims about the Intersects matrix -/

theorem lsIls_nil_left (o : List Point) : lineStringIntersectsLineString [] o = false := by
  simp [lineStringIntersectsLineString]

theorem lsIls_nil_right (s : List Point) : lineStringIntersectsLineString s [] = false := by
  simp [lineStringIntersectsLineString]

/-- C9: an empty LineString never intersects anything: against a Line, a
LineString or a Polygon the result is false in both argument orders. -/
theorem empty_linestring_never_intersects (l : Line) (ls : List Point) (poly : Polygon) :
    lineIntersectsLineString l [] = false ∧
      lineStringIntersectsLine [] l = false ∧
      lineStringIntersectsLineString [] ls = false ∧
      lineStringIntersectsLineString ls [] = false ∧
      polygonIntersectsLineString poly [] = false ∧
      lineStringIntersectsPolygon [] poly = false := by
  refine ⟨rfl, rfl, lsIls_nil_left ls, lsIls_nil_right ls, ?_, ?_⟩
  · simp [polygonIntersectsLineString, lsIls_nil_right]
  · simp [lineStringIntersectsPolygon, polygonIntersectsLineString, lsIls_nil_right]

/-- C10: each coordinate setter changes only its own coordinate: set_x
leaves y unchanged (and stores its argument in x), set_y leaves x
unchanged (and stores its argument in y). -/
theorem set_x_set_y_frame (p : Point) (v : ℚ) :
    (p.set_x v).y = p.y ∧ (p.set_x v).x = v ∧ (p.set_y v).x = p.x ∧ (p.set_y v).y = v :=
  ⟨rfl, rfl, rfl, rfl⟩

/-- C7 counterexample: the box [0,2]x[0,2] fully contains [0,1]x[0,1]
(they share a corner), yet big.intersects(small) is true; only the
direction small.intersects(big) yields false, so containment does not
force false in both directions. -/
theorem bbox_containment_quirk_cex :
    bboxContainsBbox ⟨0, 2, 0, 2⟩ ⟨0, 1, 0, 1⟩ = true ∧
      bboxIntersectsBbox ⟨0, 2, 0, 2⟩ ⟨0, 1, 0, 1⟩ = true ∧
      bboxIntersectsBbox ⟨0, 1, 0, 1⟩ ⟨0, 2, 0, 2⟩ = false := by
  refine ⟨?_, ?_, ?_⟩ <;> norm_num [bboxIntersectsBbox, bboxContainsBbox]

/-- C7 amended: receiver.intersects(argument) checks containment only in
one direction: it is false when the argument box contains the receiver,
and otherwise true exactly when, on each axis, the receiver's (not either
box's) min or max falls within the argument's range on that axis. -/
theorem bbox_intersects_characterization (s b : Bbox) :
    bboxIntersectsBbox s b = true ↔
      bboxContainsBbox b s = false ∧
        (b.xmin ≤ s.xmin ∧ s.xmin ≤ b.xmax ∨ b.xmin ≤ s.xmax ∧ s.xmax ≤ b.xmax) ∧
        (b.ymin ≤ s.ymin ∧ s.ymin ≤ b.ymax ∨ b.ymin ≤ s.ymax ∧ s.ymax ≤ b.ymax) := by
  by_cases hc : bboxContainsBbox b s
  · simp [bboxIntersectsBbox, hc]
  · simp only [Bool.not_eq_true] at hc
    simp [bboxIntersectsBbox, hc]

/-- C8: the Line against Point predicate follows the four-case parametric
policy of the spec, and the two concrete cases hold: the vertical segment
(2,0)-(2,5) intersects the point (2,4), while the segment (0,6)-(1.5,4.5)
does not, although (2,4) lies on its infinite extension. -/
theorem line_point_four_cases :
    (∀ l p, l.dx = 0 → l.dy = 0 → (lineIntersectsPoint l p = true ↔ p = l.start)) ∧
      (∀ l p, l.dx ≠ 0 → l.dy = 0 →
        (lineIntersectsPoint l p = true ↔
          p.y = l.start.y ∧ 0 ≤ (p.x - l.start.x) / l.dx ∧ (p.x - l.start.x) / l.dx ≤ 1)) ∧
      (∀ l p, l.dx = 0 → l.dy ≠ 0 →
        (lineIntersectsPoint l p = true ↔
          p.x = l.start.x ∧ 0 ≤ (p.y - l.start.y) / l.dy ∧ (p.y - l.start.y) / l.dy ≤ 1)) ∧
      (∀ l p, l.dx ≠ 0 → l.dy ≠ 0 →
        (lineIntersectsPoint l p = true ↔
          |(p.x - l.start.x) / l.dx - (p.y - l.start.y) / l.dy| ≤ machineEps ∧
            0 ≤ (p.x - l.start.x) / l.dx ∧ (p.x - l.start.x) / l.dx ≤ 1)) ∧
      lineIntersectsPoint ⟨⟨2, 0⟩, ⟨2, 5⟩⟩ ⟨2, 4⟩ = true ∧
      lineIntersectsPoint ⟨⟨0, 6⟩, ⟨3 / 2, 9 / 2⟩⟩ ⟨2, 4⟩ = false := by
  refine ⟨?_, ?_, ?_, ?_, ?_, ?_⟩
  · intro l p hdx hdy
    simp [lineIntersectsPoint, hdx, hdy]
  · intro l p hdx hdy
    simp [lineIntersectsPoint, hdx, hdy, and_assoc]
  · intro l p hdx hdy
    simp [lineIntersectsPoint, hdx, hdy, and_assoc]
  · intro l p hdx hdy
    simp [lineIntersectsPoint, hdx, hdy, and_assoc]
  · norm_num [lineIntersectsPoint, Line.dx, Line.dy]
  · norm_num [lineIntersectsPoint, Line.dx, Line.dy, machineEps]

/-- Witness for C8 at the vertical-line case of the policy, applied to the
concrete segment (2,0)-(2,5) and point (2,4). -/
theorem line_point_four_cases_witness :
    (⟨⟨2, 0⟩, ⟨2, 5⟩⟩ : Line).dx = 0 ∧ (⟨⟨2, 0⟩, ⟨2, 5⟩⟩ : Line).dy ≠ 0 ∧
      (lineIntersectsPoint ⟨⟨2, 0⟩, ⟨2, 5⟩⟩ ⟨2, 4⟩ = true ↔
        (⟨2, 4⟩ : Point).x = (⟨⟨2, 0⟩, ⟨2, 5⟩⟩ : Line).start.x ∧
          0 ≤ ((⟨2, 4⟩ : Point).y - (⟨⟨2, 0⟩, ⟨2, 5⟩⟩ : Line).start.y) /
              (⟨⟨2, 0⟩, ⟨2, 5⟩⟩ : Line).dy ∧
          ((⟨2, 4⟩ : Point).y - (⟨⟨2, 0⟩, ⟨2, 5⟩⟩ : Line).start.y) /
              (⟨⟨2, 0⟩, ⟨2, 5⟩⟩ : Line).dy ≤ 1) :=
  ⟨by norm_num [Line.dx], by norm_num [Line.dy],
    line_point_four_cases.2.2.1 ⟨⟨2, 0⟩, ⟨2, 5⟩⟩ ⟨2, 4⟩ (by norm_num [Line.dx])
      (by norm_num [Line.dy])⟩

/-- The Line against Line case is symmetric: swapping the operands negates
the determinant, swaps the two Cramer parameters, and permutes the four
endpoint checks of the parallel fallback. -/
theorem lineIntersectsLine_symm (a b : Line) :
    lineIntersectsLine a b = lineIntersectsLine b a := by
  unfold lineIntersectsLine
  by_cases hd : a.dx * -b.dy - a.dy * -b.dx = 0
  · have hd' : b.dx * -a.dy - b.dy * -a.dx = 0 := by linear_combination -(1 : ℚ) * hd
    rw [if_pos hd, if_pos hd']
    cases lineIntersectsPoint b a.start <;> cases lineIntersectsPoint b a.stop <;>
      cases lineIntersectsPoint a b.start <;> cases lineIntersectsPoint a b.stop <;> rfl
  · have hd' : b.dx * -a.dy - b.dy * -a.dx ≠ 0 := fun h => hd (by linear_combination -(1 : ℚ) * h)
    rw [if_neg hd, if_neg hd']
    have hsp : ((a.start.x - b.start.x) * -a.dy - (a.start.y - b.start.y) * -a.dx) /
          (b.dx * -a.dy - b.dy * -a.dx) =
        (a.dx * (b.start.y - a.start.y) - a.dy * (b.start.x - a.start.x)) /
          (a.dx * -b.dy - a.dy * -b.dx) := by
      rw [div_eq_div_iff hd' hd]; ring
    have htp : (b.dx * (a.start.y - b.start.y) - b.dy * (a.start.x - b.start.x)) /
          (b.dx * -a.dy - b.dy * -a.dx) =
        ((b.start.x - a.start.x) * -b.dy - (b.start.y - a.start.y) * -b.dx) /
          (a.dx * -b.dy - a.dy * -b.dx) := by
      rw [div_eq_div_iff hd' hd]; ring
    rw [hsp, htp]
    exact Bool.and_comm _ _

/-- The per-pair parametric test of the LineString case is symmetric:
swapping the segments negates the shared denominator and swaps the two
numerators up to sign. -/
theorem segPairTest_symm (a b : Line) : segPairTest a b = segPairTest b a := by
  unfold segPairTest
  by_cases hden : b.dy * a.dx - b.dx * a.dy = 0
  · have hden' : a.dy * b.dx - a.dx * b.dy = 0 := by linear_combination -(1 : ℚ) * hden
    rw [if_pos hden, if_pos hden']
  · have hden' : a.dy * b.dx - a.dx * b.dy ≠ 0 :=
      fun h => hden (by linear_combination -(1 : ℚ) * h)
    rw [if_neg hden, if_neg hden']
    have h1 : (a.dx * (b.start.y - a.start.y) - a.dy * (b.start.x - a.start.x)) /
          (a.dy * b.dx - a.dx * b.dy) =
        (a.dx * (a.start.y - b.start.y) - a.dy * (a.start.x - b.start.x)) /
          (b.dy * a.dx - b.dx * a.dy) := by
      rw [div_eq_div_iff hden' hden]; ring
    have h2 : (b.dx * (b.start.y - a.start.y) - b.dy * (b.start.x - a.start.x)) /
          (a.dy * b.dx - a.dx * b.dy) =
        (b.dx * (a.start.y - b.start.y) - b.dy * (a.start.x - b.start.x)) /
          (b.dy * a.dx - b.dx * a.dy) := by
      rw [div_eq_div_iff hden' hden]; ring
    dsimp only
    rw [h1, h2]
    exact Bool.and_comm _ _

/-- Membership formulation of the LineString against LineString case. -/
theorem lsIls_eq_true_iff (s o : List Point) :
    lineStringIntersectsLineString s o = true ↔
      s ≠ [] ∧ o ≠ [] ∧ ∃ sa ∈ linesOf s, ∃ sb ∈ linesOf o, segPairTest sa sb = true := by
  by_cases hs : s = []
  · simp [lineStringIntersectsLineString, hs]
  · by_cases ho : o = []
    · simp [lineStringIntersectsLineString, hs, ho]
    · simp [lineStringIntersectsLineString, hs, ho, List.any_eq_true]

/-- The LineString against LineString case is symmetric. -/
theorem lineStringIntersectsLineString_symm (s o : List Point) :
    lineStringIntersectsLineString s o = lineStringIntersectsLineString o s := by
  apply Bool.eq_iff_iff.mpr
  rw [lsIls_eq_true_iff, lsIls_eq_true_iff]
  constructor
  · rintro ⟨hs, ho, sa, hsa, sb, hsb, hg⟩
    exact ⟨ho, hs, sb, hsb, sa, hsa, by rw [segPairTest_symm]; exact hg⟩
  · rintro ⟨ho, hs, sb, hsb, sa, hsa, hg⟩
    exact ⟨hs, ho, sa, hsa, sb, hsb, by rw [segPairTest_symm]; exact hg⟩

set_option maxHeartbeats 2000000 in
/-- C6 counterexample: symmetry fails on two of the one-sided self pairs.
For the boxes [0,2]x[0,2] and [0,1]x[0,1] (nested, sharing a corner)
intersects is true one way and false the other; likewise for the unit-ish
square polygon and a far-away polygon that carries an interior ring around
the point (1,1): the square sees the hole's vertices inside itself, but
the reverse direction checks only the square's (empty) hole list. -/
theorem intersects_symmetry_cex :
    bboxIntersectsBbox ⟨0, 2, 0, 2⟩ ⟨0, 1, 0, 1⟩ = true ∧
      bboxIntersectsBbox ⟨0, 1, 0, 1⟩ ⟨0, 2, 0, 2⟩ = false ∧
      polygonIntersectsPolygon ⟨[⟨0, 0⟩, ⟨2, 0⟩, ⟨2, 2⟩, ⟨0, 2⟩, ⟨0, 0⟩], []⟩
          ⟨[⟨10, 10⟩, ⟨12, 10⟩, ⟨12, 12⟩, ⟨10, 12⟩, ⟨10, 10⟩],
            [[⟨9 / 10, 9 / 10⟩, ⟨11 / 10, 9 / 10⟩, ⟨11 / 10, 11 / 10⟩, ⟨9 / 10, 11 / 10⟩,
              ⟨9 / 10, 9 / 10⟩]]⟩ = true ∧
      polygonIntersectsPolygon
          ⟨[⟨10, 10⟩, ⟨12, 10⟩, ⟨12, 12⟩, ⟨10, 12⟩, ⟨10, 10⟩],
            [[⟨9 / 10, 9 / 10⟩, ⟨11 / 10, 9 / 10⟩, ⟨11 / 10, 11 / 10⟩, ⟨9 / 10, 11 / 10⟩,
              ⟨9 / 10, 9 / 10⟩]]⟩
          ⟨[⟨0, 0⟩, ⟨2, 0⟩, ⟨2, 2⟩, ⟨0, 2⟩, ⟨0, 0⟩], []⟩ = false := by
  refine ⟨?_, ?_, ?_, ?_⟩
  · norm_num [bboxIntersectsBbox, bboxContainsBbox]
  · norm_num [bboxIntersectsBbox, bboxContainsBbox]
  · norm_num [polygonIntersectsPolygon, polygonIntersectsLineString,
      lineStringIntersectsLineString, linesOf, segPairTest, Line.dx, Line.dy,
      polygonContainsPoint, pointInRing, raySegCross, machineEps, List.cons_ne_nil]
  · norm_num [polygonIntersectsPolygon, polygonIntersectsLineString,
      lineStringIntersectsLineString, linesOf, segPairTest, Line.dx, Line.dy,
      polygonContainsPoint, pointInRing, raySegCross, machineEps, List.cons_ne_nil]

/-- C6 amended: symmetry holds for every delegating pair of the matrix and
for the one-sided self pairs Line against Line and LineString against
LineString, but not for all one-sided self pairs: the Bbox and Polygon
self pairs are asymmetric for some inputs. This theorem proves the
positive part. -/
theorem intersects_symmetric_pairs :
    (∀ a b : Line, lineIntersectsLine a b = lineIntersectsLine b a) ∧
      (∀ s o : List Point,
        lineStringIntersectsLineString s o = lineStringIntersectsLineString o s) ∧
      (∀ p l, pointIntersectsLine p l = lineIntersectsPoint l p) ∧
      (∀ ls l, lineStringIntersectsLine ls l = lineIntersectsLineString l ls) ∧
      (∀ poly l, polygonIntersectsLine poly l = lineIntersectsPolygon l poly) ∧
      (∀ ls poly, lineStringIntersectsPolygon ls poly = polygonIntersectsLineString poly ls) ∧
      (∀ b poly, bboxIntersectsPolygon b poly = polygonIntersectsBbox poly b) :=
  ⟨lineIntersectsLine_symm, lineStringIntersectsLineString_symm, fun _ _ => rfl,
    fun _ _ => rfl, fun _ _ => rfl, fun _ _ => rfl, fun _ _ => rfl⟩

end Geo
